import Mathlib

/-!
Verification of the storecache writeback queue (`store/storecache`).

The development shallowly embeds the Go source of the writeback scheduler:

* the `parallelism` AIMD controller (`failure`, `success`, `ok`, `add`);
* the scheduler's event handlers (`submit`, `done`, `flush` dispatch arms);
* the worker's `writeback` routine over an abstract file-system map;
* the persistence bridge (`requestWriteback`, `enqueueWritebackFile`).

Go machine integers are modelled as `Int`.  The only division that occurs,
`(max + 1) / 2`, is applied to values that the theorems keep at or above 1,
where Lean's integer division and Go's truncating division coincide.
Go maps are modelled as functions into `Option`, Go string operations are
re-implemented on `List Char` with Go's semantics, and channel effects
(woken flush latches, armed retry timers, emitted requests) are returned as
explicit values.
-/

namespace Writeback

/-- Number of writer goroutines to start (source constant `writers = 20`). -/
def writers : Int := 20

/-- Initial maximum number of parallel writebacks (source constant
`initialMaxParallel = 6`). -/
def initialMaxParallel : Int := 6

/-- Terminating characters for writeback link names (source constant
`writebackSuffix = "_wbf"`). -/
def writebackSuffix : String := "_wbf"

/-- Go `strings.Contains(s, sub)`: some tail of `s` starts with `sub`. -/
def containsGo (s sub : String) : Bool :=
  s.data.tails.any fun t => sub.data.isPrefixOf t

/-- Go `strings.HasSuffix(s, suffix)`. -/
def hasSuffixGo (s suffix : String) : Bool :=
  suffix.data.isSuffixOf s.data

/-- Go `strings.TrimSuffix(s, suffix)`: drops the trailing `suffix` when
present, otherwise returns `s` unchanged. -/
def trimSuffixGo (s suffix : String) : String :=
  if hasSuffixGo s suffix then ⟨s.data.take (s.data.length - suffix.data.length)⟩ else s

/-- Go `strings.HasPrefix(s, pre)`. -/
def hasPrefixGo (s pre : String) : Bool :=
  pre.data.isPrefixOf s.data

/-- Go `strings.TrimPrefix(s, pre)`: drops the leading `pre` when present,
otherwise returns `s` unchanged. -/
def trimPrefixGo (s pre : String) : String :=
  if hasPrefixGo s pre then ⟨s.data.drop pre.data.length⟩ else s

/-- Auxiliary recursion for `splitSlash`; `acc` holds the characters of the
current field in reverse. -/
def splitSlashAux : List Char → List Char → List String
  | [], acc => [⟨acc.reverse⟩]
  | x :: xs, acc =>
    if x = '/' then ⟨acc.reverse⟩ :: splitSlashAux xs [] else splitSlashAux xs (x :: acc)

/-- Go `strings.Split(s, "/")` (the only separator used by the source):
the fields of `s` around each `'/'`; `""` splits to `[""]`. -/
def splitSlash (s : String) : List String :=
  splitSlashAux s.data []

/-- The result of the source's `err.Error()` string test in `isTimeout`:
the message contains `"timeout"` or `"400"`. -/
def isTimeout (errMsg : String) : Bool :=
  containsGo errMsg "timeout" || containsGo errMsg "400"

/-- The source's `parallelism` struct: in-flight count, adaptive ceiling and
the streak of counted successes. -/
structure Parallelism where
  inFlight : Int
  max : Int
  successes : Int
  deriving DecidableEq, Repr

/-- The source's `newParallelism(max)`: clamps the ceiling to at least 1 and
starts with nothing in flight. -/
def newParallelism (m : Int) : Parallelism :=
  if m < 1 then { inFlight := 0, max := 1, successes := 0 }
  else { inFlight := 0, max := m, successes := 0 }

/-- The source's `parallelism.failure(err)`: decrement `inFlight`; a
non-timeout error is returned to the caller unhandled; a timeout error resets
the streak and halves the ceiling unless a previous halving is still being
absorbed (`inFlight ≥ max` after the decrement). -/
def failure (p : Parallelism) (errMsg : String) : Parallelism × Bool :=
  let p1 := { p with inFlight := p.inFlight - 1 }
  if !isTimeout errMsg then (p1, false)
  else
    let p2 := { p1 with successes := 0 }
    if p2.inFlight ≥ p2.max then (p2, true)
    else ({ p2 with max := (p2.max + 1) / 2 }, true)

/-- The source's `parallelism.success()`: decrement `inFlight`; a completion
that arrived while the load was below the ceiling is not counted; otherwise
the streak grows and, below the `writers` cap, a full streak bumps the
ceiling by one. -/
def success (p : Parallelism) : Parallelism :=
  let p1 := { p with inFlight := p.inFlight - 1 }
  if p1.inFlight + 1 < p1.max then p1
  else
    let p2 := { p1 with successes := p1.successes + 1 }
    if p2.max = writers then p2
    else if p2.successes ≥ p2.max then { p2 with successes := 0, max := p2.max + 1 }
    else p2

/-- The source's `parallelism.ok()`. -/
def ok (p : Parallelism) : Bool :=
  p.inFlight < p.max

/-- The source's `parallelism.add()`. -/
def add (p : Parallelism) : Parallelism :=
  { p with inFlight := p.inFlight + 1 }

/-- `upspin.Endpoint`: a transport tag plus a network address.  Only its
decidable equality matters to the scheduler, which uses it as a map key. -/
structure Endpoint where
  transport : String
  netAddr : String
  deriving DecidableEq, Repr

/-- `upspin.Location`: the (reference, endpoint) identity of a writeback. -/
structure Location where
  reference : String
  endpoint : Endpoint
  deriving DecidableEq, Repr

/-- The source's `request` struct.  The flush latches (`flushChans`, each a
`chan bool` closed exactly once in Go) are modelled as latch identifiers. -/
structure Request where
  loc : Location
  err : Option String
  flushChans : List Nat
  deriving DecidableEq, Repr

/-- `endpointQueue.state` value `unknown`. -/
def unknown : Nat := 0

/-- `endpointQueue.state` value `live`. -/
def live : Nat := 1

/-- `endpointQueue.state` value `dead`. -/
def dead : Nat := 2

/-- The source's `endpointQueue`: pending work for one endpoint plus its
liveness state.  Go stores `*request` pointers that alias entries of the
`queued` map; the embedding stores the `Location` keys and keeps the single
authoritative `Request` value in the scheduler's `queued` map. -/
structure EndpointQueue where
  queue : List Location
  state : Nat
  deriving DecidableEq, Repr

/-- Point update of a map-as-function (a Go map write or delete). -/
def updMap {α β : Type} [DecidableEq α] (m : α → Option β) (k : α) (v : Option β) :
    α → Option β :=
  fun x => if x = k then v else m x

/-- The scheduler-owned state of `writebackQueue`: the per-endpoint queues,
the in-flight index `queued`, and the parallelism controller `p`. -/
structure SchedState where
  byEndpoint : Endpoint → Option EndpointQueue
  queued : Location → Option Request
  par : Parallelism

/-- The scheduler's `case r := <-wbq.request` arm: drop an already-queued
Location silently, otherwise insert it into the in-flight index and append
it to its endpoint queue, creating the queue in the `unknown` state. -/
def handleRequest (s : SchedState) (r : Request) : SchedState :=
  if (s.queued r.loc).isSome then s
  else
    let epq : EndpointQueue := match s.byEndpoint r.loc.endpoint with
      | none => { queue := [], state := unknown }
      | some q => q
    let epq1 : EndpointQueue := { epq with queue := epq.queue ++ [r.loc] }
    { s with
      queued := updMap s.queued r.loc (some r)
      byEndpoint := updMap s.byEndpoint r.loc.endpoint (some epq1) }

/-- The scheduler's `case fr := <-wbq.flushRequest` arm.  Returns the new
state and whether the latch was signalled immediately (the Go code closes
`fr.flushed` on the spot when the Location is not in flight). -/
def handleFlush (s : SchedState) (loc : Location) (latch : Nat) : SchedState × Bool :=
  match s.queued loc with
  | none => (s, true)
  | some r =>
    let r1 : Request := { r with flushChans := r.flushChans ++ [latch] }
    ({ s with queued := updMap s.queued loc (some r1) }, false)

/-- The scheduler's `case r := <-wbq.done` arm.  Returns the new state, the
latches woken (in the order the Go loop closes them) and whether a retry
timer was armed.  The completed request's endpoint queue is assumed present
(`none` models the precondition the Go code relies on to avoid a nil
dereference).  On error the request is re-appended to the queue's tail and
`failure` runs; only an unhandled (non-timeout) error flips the queue to
`dead` and arms the retry timer.  On success the queue is marked `live`,
`success` runs, every flush latch of the request is woken in insertion
order, and the Location leaves the in-flight index. -/
def handleDone (s : SchedState) (loc : Location) (err : Option String) :
    SchedState × List Nat × Bool :=
  match s.byEndpoint loc.endpoint with
  | none => (s, [], false)
  | some epq =>
    match err with
    | some msg =>
      let epq1 : EndpointQueue := { epq with queue := epq.queue ++ [loc] }
      let fr := failure s.par msg
      let s1 : SchedState :=
        { s with par := fr.1, byEndpoint := updMap s.byEndpoint loc.endpoint (some epq1) }
      if fr.2 then (s1, [], false)
      else if epq1.state = dead then (s1, [], false)
      else
        let epq2 : EndpointQueue := { epq1 with state := dead }
        ({ s1 with byEndpoint := updMap s1.byEndpoint loc.endpoint (some epq2) }, [], true)
    | none =>
      let woken : List Nat := match s.queued loc with
        | some r => r.flushChans
        | none => []
      let epq1 : EndpointQueue := { epq with state := live }
      let s1 : SchedState :=
        { s with par := success s.par,
                 byEndpoint := updMap s.byEndpoint loc.endpoint (some epq1),
                 queued := updMap s.queued loc none }
      (s1, woken, false)

/-- The scheduler's `case epq := <-wbq.retry` arm: a `dead` queue goes back
to `unknown`; any other state is left alone. -/
def handleRetry (q : EndpointQueue) : EndpointQueue :=
  if q.state = dead then { q with state := unknown } else q

/-- Object bytes held by the cache; their structure is irrelevant here. -/
abbrev Bytes := List Nat

/-- The `upspin.Refdata` field the worker checks: the server-computed
reference. -/
structure Refdata where
  reference : String
  deriving DecidableEq, Repr

/-- Modelled from the spec: `readFromCacheFile` lives elsewhere in the
storecache package (not among the provided sources).  Per the spec's
external-interface table, it returns the bytes at `path` and fails with a
not-found error exactly when the backing file is absent. -/
def readFromCacheFile (fs : String → Option Bytes) (path : String) :
    Except String Bytes :=
  match fs path with
  | none => Except.error "not found"
  | some d => Except.ok d

/-- The worker's `writeback(r)`.  `fs` models the cache directory,
`bindStore` the external `bind.StoreServer` resolution (yielding an abstract
`Put`), `cachePath` the enclosing cache's path function.  Returns the error
reported on the completion channel and the resulting file system.  A failed
read of the backing link is logged and treated as success; a successful put
whose reference matches removes the link. -/
def writeback (fs : String → Option Bytes)
    (bindStore : Endpoint → Except String (Bytes → Except String Refdata))
    (cachePath : String → Endpoint → String)
    (loc : Location) : Option String × (String → Option Bytes) :=
  let file := cachePath loc.reference loc.endpoint ++ writebackSuffix
  match readFromCacheFile fs file with
  | Except.error _ => (none, fs)
  | Except.ok dat =>
    match bindStore loc.endpoint with
    | Except.error e => (some e, fs)
    | Except.ok put =>
      match put dat with
      | Except.error e => (some e, fs)
      | Except.ok refdata =>
        if refdata.reference ≠ loc.reference then
          (some "refdata mismatch", fs)
        else (none, updMap fs file none)

/-- The external `os.Link(oldname, newname)` call, with POSIX semantics:
fails with an exists-error when the new name is taken, with a not-found
error when the old name is absent, and otherwise aliases the old file's
bytes under the new name. -/
def osLink (fs : String → Option Bytes) (oldname newname : String) :
    Except String (String → Option Bytes) :=
  if (fs newname).isSome then Except.error "file exists"
  else
    match fs oldname with
    | none => Except.error "no such file or directory"
    | some d => Except.ok (updMap fs newname (some d))

/-- The source's `requestWriteback(ref, e)`: link the cache file to its
writeback name; an exists-error means another writeback is pending and is
swallowed without submitting; success submits a fresh request.  Returns the
resulting file system, the returned error and the request sent (if any). -/
def requestWriteback (fs : String → Option Bytes)
    (cachePath : String → Endpoint → String) (ref : String) (e : Endpoint) :
    (String → Option Bytes) × Option String × Option Request :=
  let cf := cachePath ref e
  let wbf := cf ++ writebackSuffix
  match osLink fs cf wbf with
  | Except.error msg =>
    if containsGo msg "exists" then (fs, none, none) else (fs, some msg, none)
  | Except.ok fs1 =>
    (fs1, none,
     some { loc := { reference := ref, endpoint := e }, err := none, flushChans := [] })

/-- The source's `enqueueWritebackFile(path)`: recognise writeback links by
their suffix; parse `<dir>/<endpoint>/<type>/<reference>_wbf` and submit a
request for well-formed paths.  `parseEndpoint` abstracts the external
`upspin.ParseEndpoint`.  Returns the boolean result together with the
request sent on the scheduler channel, if any. -/
def enqueueWritebackFile (dir : String) (parseEndpoint : String → Option Endpoint)
    (path : String) : Bool × Option Request :=
  let f := trimSuffixGo path writebackSuffix
  if f = path then (false, none)
  else
    let f2 := trimPrefixGo f (dir ++ "/")
    match splitSlash f2 with
    | [e0, _ty, ref] =>
      match parseEndpoint e0 with
      | none => (true, none)
      | some e =>
        (true, some { loc := { reference := ref, endpoint := e }, err := none,
                      flushChans := [] })
    | _ => (true, none)

/-- One call the scheduler makes into the parallelism controller: `add`
from a dispatch in `pickAndQueue`, `success` or `failure err` from a
completion. -/
inductive SchedOp where
  | opAdd : SchedOp
  | opSuccess : SchedOp
  | opFailure : String → SchedOp
  deriving DecidableEq, Repr

/-- Apply one controller call. -/
def applyOp (p : Parallelism) : SchedOp → Parallelism
  | SchedOp.opAdd => add p
  | SchedOp.opSuccess => success p
  | SchedOp.opFailure msg => (failure p msg).1

/-- Apply a sequence of controller calls from left to right. -/
def applyOps (p : Parallelism) : List SchedOp → Parallelism
  | [] => p
  | o :: os => applyOps (applyOp p o) os

/-- The scheduler's call discipline: `pickAndQueue` calls `add` only after
`ok()` returned true, and every `success`/`failure` call matches an earlier
dispatch, so at least one request is in flight when it is made. -/
def guardOp (p : Parallelism) : SchedOp → Bool
  | SchedOp.opAdd => ok p
  | SchedOp.opSuccess => decide (1 ≤ p.inFlight)
  | SchedOp.opFailure _ => decide (1 ≤ p.inFlight)

/-- A controller call sequence the scheduler can make: every call respects
`guardOp` in the state it is applied in. -/
def validTrace : Parallelism → List SchedOp → Bool
  | _, [] => true
  | p, o :: os => guardOp p o && validTrace (applyOp p o) os

/-- The bounds on the parallelism state that every scheduler step preserves. -/
def SafePar (p : Parallelism) : Prop :=
  0 ≤ p.inFlight ∧ p.inFlight ≤ writers ∧ 1 ≤ p.max ∧ p.max ≤ writers

instance (p : Parallelism) : Decidable (SafePar p) := by
  unfold SafePar; infer_instance

/-- A run of `success` calls; the k-th call is made with `inFlight` forced
to the k-th entry of `is` (the load the scheduler happens to carry when the
completion arrives). -/
def successRun (p : Parallelism) : List Int → Parallelism
  | [] => p
  | i :: is => successRun (success { p with inFlight := i }) is

/-- Every call of the run is made under load: the `inFlight` value at entry
is at least the ceiling current at that point, so the completion counts
toward the streak. -/
def loadedTrace : Parallelism → List Int → Bool
  | _, [] => true
  | p, i :: is => decide (p.max ≤ i) && loadedTrace (success { p with inFlight := i }) is

/-- The number of counted successes needed to raise the ceiling from `m` by
`j` rungs: the ceiling must be matched by a full streak at each current
value, so the rungs cost `m, m+1, ..., m+j-1` successes. -/
def rungs (m j : Nat) : Nat :=
  match j with
  | 0 => 0
  | Nat.succ j1 => m + rungs (m + 1) j1

/-- Claim C4 (corrected): the claim's under-load test reads
`in_flight + 1 < max` with `in_flight` taken at entry to `success()`, but
the source decrements first and tests `inFlight+1 < max` on the decremented
field, i.e. `in_flight < max` at entry.  At entry state
`(in_flight, max, successes) = (5, 6, 0)` the claim's test fails
(`5 + 1 < 6` is false), so the claim predicts `successes` is incremented to
1; the code leaves `successes = 0`. -/
theorem success_entry_offbyone_counterexample :
    ¬ ((5 : Int) + 1 < 6)
    ∧ success { inFlight := 5, max := 6, successes := 0 }
        = { inFlight := 4, max := 6, successes := 0 }
    ∧ (success { inFlight := 5, max := 6, successes := 0 }).successes ≠ 0 + 1 := by
  refine ⟨by decide, by decide, by decide⟩

/-- Claim C4 (amended): `success()` decrements `in_flight`; writing the
fields of the entry state, it makes no other change when `in_flight < max`
held at entry (equivalently `in_flight + 1 < max` after the decrement);
otherwise the streak grows by one, except that a full streak
(`successes + 1 ≥ max`) below the `writers` cap resets the streak and
raises the ceiling by exactly 1. -/
theorem success_streak_counts_only_under_load (p : Parallelism) :
    (success p).inFlight = p.inFlight - 1
    ∧ (success p).max =
        (if p.inFlight < p.max then p.max
         else if p.max = writers then p.max
         else if p.successes + 1 ≥ p.max then p.max + 1
         else p.max)
    ∧ (success p).successes =
        (if p.inFlight < p.max then p.successes
         else if p.max = writers then p.successes + 1
         else if p.successes + 1 ≥ p.max then 0
         else p.successes + 1) := by
  unfold success
  by_cases h1 : p.inFlight - 1 + 1 < p.max
  · have e1 : p.inFlight < p.max := by omega
    simp [h1, e1]
  · have e1 : ¬ p.inFlight < p.max := by omega
    by_cases h2 : p.max = writers
    · have e1' : ¬ p.inFlight < writers := by rw [← h2]; exact e1
      simp [h1, e1, e1', h2]
    · by_cases h3 : p.successes + 1 ≥ p.max
      · simp [h1, e1, h2, h3]
      · simp [h1, e1, h2, h3]

/-- Claim C6: `failure(err)` decrements `in_flight` and returns false iff
the message contains neither `"timeout"` nor `"400"`; on a timeout-class
error it resets the streak, returns true, halves the ceiling to
`(max + 1) / 2` exactly when `in_flight < max` after the decrement, leaves
the ceiling alone when `in_flight ≥ max` (no double halving), and the
ceiling never drops below 1. -/
theorem failure_characterization (p : Parallelism) (errMsg : String)
    (hmax : 1 ≤ p.max) :
    ((failure p errMsg).2 = false
      ↔ containsGo errMsg "timeout" = false ∧ containsGo errMsg "400" = false)
    ∧ (failure p errMsg).1.inFlight = p.inFlight - 1
    ∧ (failure p errMsg).1.successes = (if isTimeout errMsg then 0 else p.successes)
    ∧ (failure p errMsg).1.max =
        (if isTimeout errMsg ∧ p.inFlight - 1 < p.max then (p.max + 1) / 2 else p.max)
    ∧ 1 ≤ (failure p errMsg).1.max := by
  unfold failure
  by_cases ht : isTimeout errMsg
  · have ht' : ¬ (containsGo errMsg "timeout" = false ∧ containsGo errMsg "400" = false) := by
      unfold isTimeout at ht
      rcases Bool.or_eq_true_iff.mp ht with h | h <;> simp [h]
    by_cases hf : p.inFlight - 1 ≥ p.max
    · have e1 : ¬ (isTimeout errMsg ∧ p.inFlight - 1 < p.max) := by
        intro h; omega
      simp [ht, ht', hf, e1]
      omega
    · have e1 : isTimeout errMsg ∧ p.inFlight - 1 < p.max := ⟨ht, by omega⟩
      simp [ht, ht', hf, e1]
      omega
  · have ht' : containsGo errMsg "timeout" = false ∧ containsGo errMsg "400" = false := by
      unfold isTimeout at ht
      constructor <;> [skip; skip] <;>
        (first
          | exact Bool.eq_false_iff.mpr fun h => ht (Bool.or_eq_true_iff.mpr (Or.inl h))
          | exact Bool.eq_false_iff.mpr fun h => ht (Bool.or_eq_true_iff.mpr (Or.inr h)))
    have e1 : ¬ (isTimeout errMsg ∧ p.inFlight - 1 < p.max) := fun h => ht h.1
    simp [ht, ht', e1]
    omega

/-- Witness for `failure_characterization` at a concrete loaded state and a
timeout-class message. -/
theorem failure_characterization_witness :
    1 ≤ ({ inFlight := 3, max := 5, successes := 2 } : Parallelism).max
    ∧ 1 ≤ (failure { inFlight := 3, max := 5, successes := 2 } "request timeout").1.max :=
  ⟨by decide,
   (failure_characterization { inFlight := 3, max := 5, successes := 2 }
     "request timeout" (by decide)).2.2.2.2⟩

/-- Claim C10: a `failure` call whose message contains neither `"timeout"`
nor `"400"` changes only `in_flight` (down by 1), leaves `max` and
`successes` untouched, and returns false. -/
theorem nonTimeout_failure_frame (p : Parallelism) (errMsg : String)
    (h1 : containsGo errMsg "timeout" = false)
    (h2 : containsGo errMsg "400" = false) :
    failure p errMsg = ({ p with inFlight := p.inFlight - 1 }, false) := by
  unfold failure isTimeout
  simp [h1, h2]

/-- Witness for `nonTimeout_failure_frame` on a concrete state and message. -/
theorem nonTimeout_failure_frame_witness :
    failure { inFlight := 7, max := 4, successes := 3 } "boom"
      = ({ inFlight := 6, max := 4, successes := 3 }, false) := by
  rw [nonTimeout_failure_frame { inFlight := 7, max := 4, successes := 3 } "boom"
    (by decide) (by decide)]
  decide

/-- One guarded controller call preserves the parallelism bounds. -/
theorem safePar_applyOp (p : Parallelism) (o : SchedOp) (hp : SafePar p)
    (hg : guardOp p o = true) : SafePar (applyOp p o) := by
  obtain ⟨h0, h1, h2, h3⟩ := hp
  simp only [writers] at h1 h3
  cases o with
  | opAdd =>
    have ha : p.inFlight < p.max := by simpa [guardOp, ok] using hg
    unfold applyOp add SafePar writers
    refine ⟨?_, ?_, ?_, ?_⟩ <;> (dsimp only; omega)
  | opSuccess =>
    have hin : (1 : Int) ≤ p.inFlight := by simpa [guardOp] using hg
    unfold applyOp success
    by_cases a1 : p.inFlight - 1 + 1 < p.max
    · simp only [if_pos a1]
      unfold SafePar writers
      refine ⟨?_, ?_, ?_, ?_⟩ <;> (dsimp only; omega)
    · simp only [if_neg a1]
      by_cases a2 : p.max = writers
      · simp only [if_pos a2]
        unfold SafePar writers
        simp only [writers] at a2
        refine ⟨?_, ?_, ?_, ?_⟩ <;> (dsimp only; omega)
      · simp only [if_neg a2]
        simp only [writers] at a2
        by_cases a3 : p.successes + 1 ≥ p.max
        · simp only [ge_iff_le, if_pos a3]
          unfold SafePar writers
          refine ⟨?_, ?_, ?_, ?_⟩ <;> (dsimp only; omega)
        · simp only [ge_iff_le, if_neg a3]
          unfold SafePar writers
          refine ⟨?_, ?_, ?_, ?_⟩ <;> (dsimp only; omega)
  | opFailure msg =>
    have hin : (1 : Int) ≤ p.inFlight := by simpa [guardOp] using hg
    unfold applyOp failure
    by_cases a1 : isTimeout msg
    · simp only [a1, Bool.not_true, Bool.false_eq_true, if_false]
      by_cases a2 : p.inFlight - 1 ≥ p.max
      · simp only [ge_iff_le, if_pos a2]
        unfold SafePar writers
        refine ⟨?_, ?_, ?_, ?_⟩ <;> (dsimp only; omega)
      · simp only [ge_iff_le, if_neg a2]
        unfold SafePar writers
        refine ⟨?_, ?_, ?_, ?_⟩ <;> (dsimp only; omega)
    · simp only [Bool.eq_false_iff.mpr a1, Bool.not_false, if_true]
      unfold SafePar writers
      refine ⟨?_, ?_, ?_, ?_⟩ <;> (dsimp only; omega)

/-- The call sequence refuting claim C3's `in_flight ≤ max` invariant: fill
the ceiling of a fresh controller (`max = 6`) with six dispatches, then
complete one of them with a timeout. -/
def overloadTrace : List SchedOp :=
  [SchedOp.opAdd, SchedOp.opAdd, SchedOp.opAdd, SchedOp.opAdd, SchedOp.opAdd,
   SchedOp.opAdd, SchedOp.opFailure "timeout"]

/-- Claim C3 (corrected): a scheduler-valid call sequence (every `add` made
under `ok()`, every completion matching a dispatch) can leave
`in_flight > max`: after six dispatches at ceiling 6, one timeout halves
the ceiling to 3 while five requests are still in flight. -/
theorem inFlight_le_max_counterexample :
    validTrace (newParallelism 6) overloadTrace = true
    ∧ applyOps (newParallelism 6) overloadTrace
        = { inFlight := 5, max := 3, successes := 0 }
    ∧ ¬ ((5 : Int) ≤ 3) := by
  refine ⟨by decide, by decide, by decide⟩

/-- Claim C3 (amended): at every scheduler step the parallelism state keeps
`0 ≤ in_flight ≤ WRITERS` and `1 ≤ max ≤ WRITERS`, and the initial state
satisfies these bounds; `in_flight ≤ max`, however, can be violated
transiently after a timeout halves the ceiling. -/
theorem parallelism_bounds_preserved (p : Parallelism) (t : List SchedOp)
    (hp : SafePar p) (hv : validTrace p t = true) :
    SafePar (applyOps p t) ∧ SafePar (newParallelism initialMaxParallel) := by
  refine ⟨?_, by decide⟩
  induction t generalizing p with
  | nil => simpa [applyOps] using hp
  | cons o os ih =>
    have hv' := hv
    unfold validTrace at hv'
    have hg : guardOp p o = true := (Bool.and_eq_true_iff.mp hv').1
    have hrest : validTrace (applyOp p o) os = true := (Bool.and_eq_true_iff.mp hv').2
    exact ih (applyOp p o) (safePar_applyOp p o hp hg) hrest

/-- Witness for `parallelism_bounds_preserved` on the concrete overload
trace from the fresh controller state. -/
theorem parallelism_bounds_preserved_witness :
    SafePar (newParallelism 6)
    ∧ validTrace (newParallelism 6) overloadTrace = true
    ∧ SafePar (applyOps (newParallelism 6) overloadTrace) :=
  ⟨by decide, by decide,
   (parallelism_bounds_preserved (newParallelism 6) overloadTrace
     (by decide) (by decide)).1⟩

/-- A counted `success` that does not complete the streak: the load is at
or above the ceiling, the ceiling is below the cap, and the streak stays
short of the ceiling. -/
theorem success_no_bump (p : Parallelism) (h1 : p.max ≤ p.inFlight)
    (hw : p.max < writers) (h2 : p.successes + 1 < p.max) :
    success p = { p with inFlight := p.inFlight - 1, successes := p.successes + 1 } := by
  unfold success
  unfold writers at hw
  have a1 : ¬ (p.inFlight - 1 + 1 < p.max) := by omega
  have a2 : p.max ≠ writers := by unfold writers; omega
  have a3 : ¬ (p.successes + 1 ≥ p.max) := by omega
  simp [a1, a2, a3]
  omega

/-- A counted `success` that completes the streak below the cap: the streak
resets and the ceiling rises by one. -/
theorem success_bump (p : Parallelism) (h1 : p.max ≤ p.inFlight)
    (hw : p.max < writers) (h2 : p.successes + 1 ≥ p.max) :
    success p = { inFlight := p.inFlight - 1, max := p.max + 1, successes := 0 } := by
  unfold success
  unfold writers at hw
  have a1 : ¬ (p.inFlight - 1 + 1 < p.max) := by omega
  have a2 : p.max ≠ writers := by unfold writers; omega
  have a3 : p.successes + 1 ≥ p.max := h2
  simp [a1, a2, a3]
  omega

/-- Splitting a success run. -/
theorem successRun_append (p : Parallelism) (is1 is2 : List Int) :
    successRun p (is1 ++ is2) = successRun (successRun p is1) is2 := by
  induction is1 generalizing p with
  | nil => rfl
  | cons i rest ih => simp [successRun, ih]

/-- Splitting a loaded trace. -/
theorem loadedTrace_append (p : Parallelism) (is1 is2 : List Int) :
    loadedTrace p (is1 ++ is2)
      = (loadedTrace p is1 && loadedTrace (successRun p is1) is2) := by
  induction is1 generalizing p with
  | nil => simp [loadedTrace, successRun]
  | cons i rest ih => simp [loadedTrace, successRun, ih, Bool.and_assoc]

/-- One rung of the AIMD sawtooth: starting with a streak that needs the
whole list to fill the ceiling, a loaded run of that length raises the
ceiling by exactly one and resets the streak. -/
theorem successRun_one_rung (is : List Int) : ∀ (p : Parallelism),
    0 < is.length →
    loadedTrace p is = true →
    p.successes + is.length = p.max →
    p.max < writers →
    (successRun p is).max = p.max + 1 ∧ (successRun p is).successes = 0 := by
  induction is with
  | nil => intro p hpos _ _ _; simp at hpos
  | cons i rest ih =>
    intro p _ hl hs hw
    have hl1 : (decide (p.max ≤ i) && loadedTrace (success { p with inFlight := i }) rest) = true := hl
    have hload : p.max ≤ i := of_decide_eq_true (Bool.and_eq_true_iff.mp hl1).1
    have hl' : loadedTrace (success { p with inFlight := i }) rest = true :=
      (Bool.and_eq_true_iff.mp hl1).2
    have hs' : p.successes + (1 + rest.length : Nat) = p.max := by
      simpa [List.length_cons, Nat.add_comm] using hs
    by_cases hone : rest.length = 0
    · have hrest : rest = [] := List.eq_nil_of_length_eq_zero hone
      subst hrest
      have hb := success_bump { p with inFlight := i }
        (by dsimp only; omega) (by dsimp only; omega) (by dsimp only; omega)
      simp [successRun, hb]
    · have hnb := success_no_bump { p with inFlight := i }
        (by dsimp only; omega) (by dsimp only; omega) (by dsimp only; omega)
      have step := ih (success { p with inFlight := i })
        (by omega) hl' (by rw [hnb]; dsimp only; omega) (by rw [hnb]; dsimp only; omega)
      have hmax : (success { p with inFlight := i }).max = p.max := by
        rw [hnb]
      simp only [successRun] at step ⊢
      rw [hmax] at step
      exact step

/-- The loaded run refuting claim C5's `⌊k/m⌋` law: from `max = 2`,
`successes = 0`, four counted successes leave `max = 3`, while the claim
predicts an increase of `⌊4/2⌋ = 2`. -/
theorem aimd_floor_law_counterexample :
    loadedTrace { inFlight := 0, max := 2, successes := 0 } [2, 2, 3, 3] = true
    ∧ (successRun { inFlight := 0, max := 2, successes := 0 } [2, 2, 3, 3]).max = 3
    ∧ (2 : Int) + 4 / 2 ≠ 3 := by
  refine ⟨by decide, by decide, by decide⟩

/-- Claim C5 (amended): starting from `successes = 0` and ceiling `m ≥ 1`,
a sequence of counted (non-under-loaded) successes raises the ceiling by
`j` after exactly `m + (m+1) + ⋯ + (m+j-1)` calls (the rung schedule
`rungs m j`), within the `WRITERS` cap — not after `⌊k/m⌋` calls. -/
theorem aimd_rung_schedule (j : Nat) : ∀ (m : Nat) (is : List Int) (p : Parallelism),
    1 ≤ m →
    p.max = (m : Int) →
    p.successes = 0 →
    (m : Int) + (j : Int) ≤ writers →
    loadedTrace p is = true →
    is.length = rungs m j →
    (successRun p is).max = (m : Int) + (j : Int)
    ∧ (successRun p is).successes = 0 := by
  induction j with
  | zero =>
    intro m is p _ hmax hs _ _ hlen
    have hnil : is = [] := List.eq_nil_of_length_eq_zero (by simpa [rungs] using hlen)
    subst hnil
    simp [successRun, hmax, hs]
  | succ j1 ih =>
    intro m is p hm hmax hs hw hl hlen
    have hsplit : is.take m ++ is.drop m = is := List.take_append_drop m is
    have hlenr : is.length = m + rungs (m + 1) j1 := by simpa [rungs] using hlen
    have hlen1 : (is.take m).length = m := by
      rw [List.length_take]; omega
    have hlen2 : (is.drop m).length = rungs (m + 1) j1 := by
      rw [List.length_drop]; omega
    have hl2 := hl
    rw [← hsplit, loadedTrace_append] at hl2
    have hla : loadedTrace p (is.take m) = true := (Bool.and_eq_true_iff.mp hl2).1
    have hlb : loadedTrace (successRun p (is.take m)) (is.drop m) = true :=
      (Bool.and_eq_true_iff.mp hl2).2
    have hwInt : (m : Int) < writers := by
      unfold writers at hw ⊢; omega
    have rung := successRun_one_rung (is.take m) p (by omega)
      hla (by rw [hlen1, hmax, hs]; omega) (by rw [hmax]; exact hwInt)
    have step := ih (m + 1) (is.drop m) (successRun p (is.take m))
      (by omega)
      (by rw [rung.1, hmax]; push_cast; ring)
      rung.2
      (by unfold writers at hw ⊢; push_cast; omega)
      hlb
      hlen2
    rw [← hsplit, successRun_append]
    refine ⟨?_, step.2⟩
    rw [step.1]
    push_cast
    ring

/-- Witness for `aimd_rung_schedule`: from ceiling 2 a loaded run of
`rungs 2 2 = 2 + 3 = 5` counted successes raises the ceiling to 4. -/
theorem aimd_rung_schedule_witness :
    (successRun { inFlight := 0, max := 2, successes := 0 } [2, 2, 3, 3, 3]).max
      = (2 : Int) + (2 : Int)
    ∧ (successRun { inFlight := 0, max := 2, successes := 0 } [2, 2, 3, 3, 3]).successes
      = 0 :=
  aimd_rung_schedule 2 2 [2, 2, 3, 3, 3] { inFlight := 0, max := 2, successes := 0 }
    (by decide) (by decide) (by decide) (by decide) (by decide) (by decide)

/-- Reading the updated key. -/
theorem updMap_self {α β : Type} [DecidableEq α] (m : α → Option β) (k : α)
    (v : Option β) : updMap m k v k = v := by
  simp [updMap]

/-- Reading any other key. -/
theorem updMap_other {α β : Type} [DecidableEq α] (m : α → Option β) (k x : α)
    (v : Option β) (hx : x ≠ k) : updMap m k v x = m x := by
  simp [updMap, hx]

/-- `failure` reports an error handled exactly when it is timeout-class. -/
theorem failure_snd (p : Parallelism) (msg : String) :
    (failure p msg).2 = isTimeout msg := by
  unfold failure
  by_cases h : isTimeout msg
  · simp only [h, Bool.not_true, Bool.false_eq_true, if_false]
    split <;> simp [h]
  · simp [h]

/-- A non-timeout error leaves `failure` with only the decrement and a
false result. -/
theorem failure_nonTimeout (p : Parallelism) (msg : String)
    (h : isTimeout msg = false) :
    failure p msg = ({ p with inFlight := p.inFlight - 1 }, false) := by
  unfold failure
  simp [h]

/-- A concrete endpoint used by the closed counterexamples and witnesses. -/
def sampleEndpoint : Endpoint :=
  { transport := "remote", netAddr := "store.example.com:443" }

/-- A concrete Location on `sampleEndpoint`. -/
def sampleLoc : Location :=
  { reference := "ref0", endpoint := sampleEndpoint }

/-- A concrete pending Request with two registered flush latches. -/
def sampleReq : Request :=
  { loc := sampleLoc, err := none, flushChans := [1, 2] }

/-- A scheduler state with `sampleReq` in flight and its endpoint queue
empty and `live`. -/
def sampleState : SchedState :=
  { byEndpoint := fun e => if e = sampleEndpoint then some { queue := [], state := live } else none
    queued := fun l => if l = sampleLoc then some sampleReq else none
    par := { inFlight := 1, max := 6, successes := 0 } }

/-- A scheduler state with `sampleEndpoint` known but nothing in flight. -/
def idleState : SchedState :=
  { byEndpoint := fun e => if e = sampleEndpoint then some { queue := [], state := live } else none
    queued := fun _ => none
    par := newParallelism 6 }

/-- Claim C1 (counterexample): on the non-timeout completion error
`"boom"` for a `live` endpoint queue, the scheduler flips the queue to
`dead` and arms the retry timer, the opposite of the claim's table. -/
theorem nonTimeout_marks_dead_counterexample :
    isTimeout "boom" = false
    ∧ (handleDone sampleState sampleLoc (some "boom")).1.byEndpoint sampleEndpoint
        = some { queue := [sampleLoc], state := dead }
    ∧ (handleDone sampleState sampleLoc (some "boom")).2.2 = true := by
  refine ⟨by decide, by decide, by decide⟩

/-- Claim C1 (amended): an erroring completion always re-appends the
Request to its endpoint queue's tail; when the error is NOT timeout-class
the controller declines it, the ceiling is unchanged, and the scheduler
marks the queue `dead` (arming the retry timer unless it already was
`dead`); when the error IS timeout-class the controller handles it and the
queue's state is left as it was, with no retry scheduled. -/
theorem completion_error_dead_marking (s : SchedState) (loc : Location)
    (msg : String) (epq : EndpointQueue)
    (h : s.byEndpoint loc.endpoint = some epq) :
    (isTimeout msg = false →
      (handleDone s loc (some msg)).1.byEndpoint loc.endpoint
        = some { queue := epq.queue ++ [loc], state := dead }
      ∧ (handleDone s loc (some msg)).1.par.max = s.par.max
      ∧ ((handleDone s loc (some msg)).2.2 = true ↔ epq.state ≠ dead))
    ∧ (isTimeout msg = true →
      (handleDone s loc (some msg)).1.byEndpoint loc.endpoint
        = some { queue := epq.queue ++ [loc], state := epq.state }
      ∧ (handleDone s loc (some msg)).2.2 = false) := by
  constructor
  · intro ht
    have hframe := failure_nonTimeout s.par msg ht
    by_cases hd : epq.state = dead
    · simp [handleDone, h, hframe, hd, updMap_self]
    · simp [handleDone, h, hframe, hd, updMap_self]
  · intro ht
    have h2 : (failure s.par msg).2 = true := by rw [failure_snd]; exact ht
    simp [handleDone, h, h2, updMap_self]

/-- Witness for `completion_error_dead_marking`: both error classes on the
concrete in-flight state. -/
theorem completion_error_dead_marking_witness :
    ((handleDone sampleState sampleLoc (some "boom")).2.2 = true
      ↔ ({ queue := [], state := live } : EndpointQueue).state ≠ dead)
    ∧ (handleDone sampleState sampleLoc (some "a timeout")).2.2 = false :=
  ⟨((completion_error_dead_marking sampleState sampleLoc "boom"
      { queue := [], state := live } (by decide)).1 (by decide)).2.2,
   ((completion_error_dead_marking sampleState sampleLoc "a timeout"
      { queue := [], state := live } (by decide)).2 (by decide)).2⟩

/-- Claim C2: when the backing file of the writeback link is absent, the
worker's read fails with not-found, `writeback` reports success (no error
on the completion channel) and the link is absent afterwards; the
scheduler's success completion then wakes the Request's flush waiters in
order and removes its Location from the in-flight index. -/
theorem missing_backing_file_discharged (fs : String → Option Bytes)
    (bindStore : Endpoint → Except String (Bytes → Except String Refdata))
    (cachePath : String → Endpoint → String) (loc : Location)
    (s : SchedState) (r : Request)
    (hfile : fs (cachePath loc.reference loc.endpoint ++ writebackSuffix) = none)
    (hq : s.queued loc = some r)
    (hep : (s.byEndpoint loc.endpoint).isSome) :
    writeback fs bindStore cachePath loc = (none, fs)
    ∧ (writeback fs bindStore cachePath loc).2
        (cachePath loc.reference loc.endpoint ++ writebackSuffix) = none
    ∧ (handleDone s loc none).2.1 = r.flushChans
    ∧ (handleDone s loc none).1.queued loc = none := by
  obtain ⟨epq, hepq⟩ := Option.isSome_iff_exists.mp hep
  have hwb : writeback fs bindStore cachePath loc = (none, fs) := by
    unfold writeback readFromCacheFile
    simp [hfile]
  refine ⟨hwb, by rw [hwb]; exact hfile, ?_, ?_⟩
  · simp [handleDone, hepq, hq]
  · simp [handleDone, hepq, updMap_self]

/-- A cache with no files at all. -/
def emptyFs : String → Option Bytes := fun _ => none

/-- A concrete cache-path function for the witnesses. -/
def cachePathSample : String → Endpoint → String := fun r _ => "cache/" ++ r

/-- Witness for `missing_backing_file_discharged` on the concrete in-flight
state over an empty cache. -/
theorem missing_backing_file_discharged_witness :
    writeback emptyFs (fun _ => Except.error "no store") cachePathSample sampleLoc
      = (none, emptyFs)
    ∧ (handleDone sampleState sampleLoc none).2.1 = [1, 2]
    ∧ (handleDone sampleState sampleLoc none).1.queued sampleLoc = none := by
  have h := missing_backing_file_discharged emptyFs (fun _ => Except.error "no store")
    cachePathSample sampleLoc sampleState sampleReq (by decide) (by decide) (by decide)
  exact ⟨h.1, h.2.2.1, h.2.2.2⟩

/-- Claim C7: submitting a Request whose Location is already in flight is a
silent no-op on the whole scheduler state; a fresh submission enters the
in-flight index and is appended to its endpoint queue (created in the
`unknown` state when absent) without touching any other key; and
`requestWriteback` returns nil without submitting when the link already
exists, so a duplicate submission yields one pending Request
(`handleRequest` is idempotent). -/
theorem submit_idempotent_and_link_swallow (s : SchedState) (r : Request)
    (q : EndpointQueue) (fs : String → Option Bytes)
    (cachePath : String → Endpoint → String) (ref : String) (e : Endpoint) :
    ((s.queued r.loc).isSome → handleRequest s r = s)
    ∧ (s.queued r.loc = none →
        (handleRequest s r).queued r.loc = some r
        ∧ (∀ l, l ≠ r.loc → (handleRequest s r).queued l = s.queued l)
        ∧ (s.byEndpoint r.loc.endpoint = none →
            (handleRequest s r).byEndpoint r.loc.endpoint
              = some { queue := [r.loc], state := unknown })
        ∧ (s.byEndpoint r.loc.endpoint = some q →
            (handleRequest s r).byEndpoint r.loc.endpoint
              = some { q with queue := q.queue ++ [r.loc] })
        ∧ (∀ e2, e2 ≠ r.loc.endpoint → (handleRequest s r).byEndpoint e2 = s.byEndpoint e2))
    ∧ ((fs (cachePath ref e ++ writebackSuffix)).isSome →
        requestWriteback fs cachePath ref e = (fs, none, none))
    ∧ handleRequest (handleRequest s r) r = handleRequest s r := by
  refine ⟨?_, ?_, ?_, ?_⟩
  · intro hq
    unfold handleRequest
    rw [if_pos hq]
  · intro hq
    refine ⟨?_, ?_, ?_, ?_, ?_⟩
    · simp [handleRequest, hq, updMap_self]
    · intro l hl
      simp [handleRequest, hq, updMap_other _ _ _ _ hl]
    · intro hep
      simp [handleRequest, hq, hep, updMap_self]
    · intro hep
      simp [handleRequest, hq, hep, updMap_self]
    · intro e2 he2
      simp [handleRequest, hq, updMap_other _ _ _ _ he2]
  · intro hlink
    unfold requestWriteback osLink
    have hex : containsGo "file exists" "exists" = true := by decide
    simp [hlink, hex]
  · have noop : ∀ t : SchedState, (t.queued r.loc).isSome → handleRequest t r = t := by
      intro t ht
      unfold handleRequest
      rw [if_pos ht]
    by_cases hq : (s.queued r.loc).isSome
    · rw [noop s hq, noop s hq]
    · have hqn : s.queued r.loc = none := by
        cases hcase : s.queued r.loc with
        | none => rfl
        | some v => exact absurd (by simp [hcase]) hq
      have h2 : (handleRequest s r).queued r.loc = some r := by
        simp [handleRequest, hqn, updMap_self]
      exact noop (handleRequest s r) (by rw [h2]; rfl)

/-- Witness for `submit_idempotent_and_link_swallow`: duplicate submission
on the in-flight state is dropped, fresh submission on the idle state is
indexed, and `requestWriteback` swallows an existing link. -/
theorem submit_idempotent_and_link_swallow_witness :
    handleRequest sampleState sampleReq = sampleState
    ∧ (handleRequest idleState sampleReq).queued sampleLoc = some sampleReq
    ∧ requestWriteback (fun p => if p = "cache/ref0_wbf" then some [] else none)
        cachePathSample "ref0" sampleEndpoint
        = ((fun p => if p = "cache/ref0_wbf" then some [] else none), none, none) :=
  ⟨(submit_idempotent_and_link_swallow sampleState sampleReq
      { queue := [], state := live } emptyFs cachePathSample "ref0" sampleEndpoint).1
      (by decide),
   ((submit_idempotent_and_link_swallow idleState sampleReq
      { queue := [], state := live } emptyFs cachePathSample "ref0" sampleEndpoint).2.1
      (by decide)).1,
   (submit_idempotent_and_link_swallow sampleState sampleReq
      { queue := [], state := live }
      (fun p => if p = "cache/ref0_wbf" then some [] else none)
      cachePathSample "ref0" sampleEndpoint).2.2.1 (by decide)⟩

/-- Claim C8: a flush for a Location not in flight is signalled on the
spot; otherwise the latch joins the Request's waiter list; a success
completion wakes exactly the registered waiters, in insertion order, and
removes the Location from the in-flight index (so they cannot be woken
again); an error completion wakes nobody and leaves the in-flight entry,
with its waiter list, untouched. -/
theorem flush_waiter_semantics (s : SchedState) (loc : Location) (latch : Nat)
    (r : Request) (hep : (s.byEndpoint loc.endpoint).isSome) :
    (s.queued loc = none → handleFlush s loc latch = (s, true))
    ∧ (s.queued loc = some r →
        (handleFlush s loc latch).2 = false
        ∧ (handleFlush s loc latch).1.queued loc
            = some { r with flushChans := r.flushChans ++ [latch] })
    ∧ (s.queued loc = some r →
        (handleDone s loc none).2.1 = r.flushChans
        ∧ (handleDone s loc none).1.queued loc = none)
    ∧ (∀ msg, (handleDone s loc (some msg)).2.1 = []
        ∧ (handleDone s loc (some msg)).1.queued loc = s.queued loc) := by
  obtain ⟨epq, hepq⟩ := Option.isSome_iff_exists.mp hep
  refine ⟨?_, ?_, ?_, ?_⟩
  · intro hq
    simp [handleFlush, hq]
  · intro hq
    simp [handleFlush, hq, updMap_self]
  · intro hq
    constructor
    · simp [handleDone, hepq, hq]
    · simp [handleDone, hepq, updMap_self]
  · intro msg
    constructor
    · unfold handleDone
      rw [hepq]
      dsimp only
      split <;> (try split) <;> rfl
    · unfold handleDone
      rw [hepq]
      dsimp only
      split <;> (try split) <;> rfl

/-- Witness for `flush_waiter_semantics`: immediate signal on the idle
state, registration and success wake-up on the in-flight state, and a
silent error completion. -/
theorem flush_waiter_semantics_witness :
    handleFlush idleState sampleLoc 7 = (idleState, true)
    ∧ (handleFlush sampleState sampleLoc 7).2 = false
    ∧ (handleDone sampleState sampleLoc none).2.1 = [1, 2]
    ∧ (handleDone sampleState sampleLoc (some "boom")).2.1 = [] :=
  ⟨(flush_waiter_semantics idleState sampleLoc 7 sampleReq (by decide)).1 (by decide),
   ((flush_waiter_semantics sampleState sampleLoc 7 sampleReq (by decide)).2.1
     (by decide)).1,
   ((flush_waiter_semantics sampleState sampleLoc 7 sampleReq (by decide)).2.2.1
     (by decide)).1,
   ((flush_waiter_semantics sampleState sampleLoc 7 sampleReq (by decide)).2.2.2
     "boom").1⟩

/-- Go's `TrimSuffix` returns its input unchanged exactly when the suffix
is absent (for a non-empty suffix), which is the test
`enqueueWritebackFile` uses to recognise writeback links. -/
theorem trimSuffixGo_eq_self_iff (s suffix : String) (hs : suffix.data ≠ []) :
    (trimSuffixGo s suffix = s ↔ hasSuffixGo s suffix = false) := by
  unfold trimSuffixGo
  by_cases h : hasSuffixGo s suffix
  · rw [if_pos h]
    simp only [h, Bool.true_eq_false, iff_false]
    intro heq
    have hdata : s.data.take (s.data.length - suffix.data.length) = s.data :=
      congrArg String.data heq
    have hsfx : suffix.data <:+ s.data := List.isSuffixOf_iff_suffix.mp h
    have hle : suffix.data.length ≤ s.data.length := hsfx.length_le
    have hlen := congrArg List.length hdata
    rw [List.length_take] at hlen
    have hpos : 0 < suffix.data.length := List.length_pos.mpr hs
    omega
  · rw [if_neg h]
    simp [Bool.eq_false_iff.mpr h]

/-- Claim C9: `enqueueWritebackFile(path)` returns false and submits
nothing exactly when `path` does not end in `"_wbf"`; every suffixed path
returns true; a request is submitted exactly when, after stripping the
suffix and the cache-root, the remainder has exactly three slash-separated
components whose first parses as an endpoint; and the submitted request
carries that endpoint and the third component as its reference. -/
theorem enqueueWritebackFile_parses (dir : String)
    (parseEndpoint : String → Option Endpoint) (path : String) :
    ((enqueueWritebackFile dir parseEndpoint path).1 = false
      ↔ hasSuffixGo path writebackSuffix = false)
    ∧ (hasSuffixGo path writebackSuffix = false
      → (enqueueWritebackFile dir parseEndpoint path).2 = none)
    ∧ ((enqueueWritebackFile dir parseEndpoint path).2.isSome
      ↔ hasSuffixGo path writebackSuffix = true
        ∧ ∃ e0 ty ref e,
            splitSlash (trimPrefixGo (trimSuffixGo path writebackSuffix) (dir ++ "/"))
              = [e0, ty, ref]
            ∧ parseEndpoint e0 = some e)
    ∧ (∀ e0 ty ref e,
        splitSlash (trimPrefixGo (trimSuffixGo path writebackSuffix) (dir ++ "/"))
            = [e0, ty, ref]
        → parseEndpoint e0 = some e
        → hasSuffixGo path writebackSuffix = true
        → (enqueueWritebackFile dir parseEndpoint path).2
            = some { loc := { reference := ref, endpoint := e }, err := none,
                     flushChans := [] }) := by
  have hsufdata : writebackSuffix.data ≠ [] := by decide
  by_cases hsuf : hasSuffixGo path writebackSuffix
  · have htrim : ¬ (trimSuffixGo path writebackSuffix = path) := by
      intro hcontra
      rw [(trimSuffixGo_eq_self_iff path writebackSuffix hsufdata).mp hcontra] at hsuf
      exact Bool.false_ne_true hsuf
    unfold enqueueWritebackFile
    rw [if_neg htrim]
    rcases hsp : splitSlash (trimPrefixGo (trimSuffixGo path writebackSuffix) (dir ++ "/"))
      with _ | ⟨e0, _ | ⟨ty, _ | ⟨ref, _ | ⟨x4, rest⟩⟩⟩⟩
    · simp [hsp, hsuf]
    · simp [hsp, hsuf]
    · simp [hsp, hsuf]
    · cases hpe : parseEndpoint e0 with
      | none =>
        refine ⟨by simp [hsp, hsuf, hpe], by simp [hsuf], ?_, ?_⟩
        · simp only [hsp, hpe]
          constructor
          · intro habs
            simp at habs
          · rintro ⟨-, e0', ty', ref', e', heq, hpe2⟩
            obtain ⟨he0, -, -⟩ : e0 = e0' ∧ ty = ty' ∧ ref = ref' := by simpa using heq
            subst he0
            rw [hpe] at hpe2
            cases hpe2
        · intro e0' ty' ref' e' hsp' hpe' _
          obtain ⟨he0, hty, href⟩ : e0 = e0' ∧ ty = ty' ∧ ref = ref' := by
            simpa using hsp'
          subst he0
          rw [hpe] at hpe'
          cases hpe'
      | some e =>
        refine ⟨by simp [hsp, hsuf, hpe], by simp [hsuf], ?_, ?_⟩
        · simp only [hsp, hpe]
          constructor
          · intro _
            exact ⟨hsuf, e0, ty, ref, e, rfl, hpe⟩
          · intro _
            rfl
        · intro e0' ty' ref' e' hsp' hpe' _
          obtain ⟨he0, hty, href⟩ : e0 = e0' ∧ ty = ty' ∧ ref = ref' := by
            simpa using hsp'
          subst he0; subst href
          rw [hpe] at hpe'
          obtain he := Option.some.inj hpe'
          subst he
          simp [hsp, hpe]
    · simp [hsp, hsuf]
  · have htrim : trimSuffixGo path writebackSuffix = path :=
      (trimSuffixGo_eq_self_iff path writebackSuffix hsufdata).mpr
        (Bool.eq_false_iff.mpr hsuf)
    unfold enqueueWritebackFile
    rw [if_pos htrim]
    refine ⟨by simp [Bool.eq_false_iff.mpr hsuf], by simp, ?_, ?_⟩
    · simp [Bool.eq_false_iff.mpr hsuf]
    · intro e0 ty ref e _ _ hcontra
      exact absurd hcontra hsuf

/-- Witness for `enqueueWritebackFile_parses`'s conditional parts on a
well-formed concrete link path. -/
theorem enqueueWritebackFile_parses_witness :
    (enqueueWritebackFile "root"
        (fun s2 => if s2 = "remote,store.example.com:443" then some sampleEndpoint else none)
        "root/remote,store.example.com:443/obj/ref0_wbf").2
      = some { loc := { reference := "ref0", endpoint := sampleEndpoint }, err := none,
               flushChans := [] }
    ∧ (enqueueWritebackFile "root"
        (fun s2 => if s2 = "remote,store.example.com:443" then some sampleEndpoint else none)
        "root/plainfile").2 = none :=
  ⟨(enqueueWritebackFile_parses "root"
      (fun s2 => if s2 = "remote,store.example.com:443" then some sampleEndpoint else none)
      "root/remote,store.example.com:443/obj/ref0_wbf").2.2.2
      "remote,store.example.com:443" "obj" "ref0" sampleEndpoint
      (by decide) (by decide) (by decide),
   (enqueueWritebackFile_parses "root"
      (fun s2 => if s2 = "remote,store.example.com:443" then some sampleEndpoint else none)
      "root/plainfile").2.1 (by decide)⟩

end Writeback
